import Mathlib

/-!
Verification of the commit-rarity classifier of `git-rare` (src/main.rs).

The source program is a small Rust CLI.  We shallowly embed its core:
strings are `List Char` (the sequence produced by Rust's `str::chars()`),
the `f64` rarity weights are embedded as exact rational constants (the
program only ever stores and compares these literals, never computes with
them), the `chrono` RFC-3339 parser is an external library and is
abstracted as a parameter `rfc3339 : List Char → Option DT` for an
arbitrary timestamp type `DT`, and Rust's `Option` maps to Lean's
`Option`.

`Char.isDigit` coincides with Rust's `char::is_ascii_digit` (the range
'0'..='9') and `Char.isAlpha` with `char::is_ascii_alphabetic`
(the ranges 'A'..='Z' and 'a'..='z').
-/

/-- The three rarity tiers (src/main.rs, `enum RarityTier`). -/
inductive RarityTier : Type where
  | Common : RarityTier
  | Uncommon : RarityTier
  | Rare : RarityTier
deriving DecidableEq, Repr

/-- A rarity classification (src/main.rs, `struct Rarity`): an explanation
string, an estimated-frequency weight (`percentage: f64` in the source,
embedded as the exact rational the literal denotes), and a tier. -/
structure Rarity : Type where
  explanation : String
  percentage : ℚ
  tier : RarityTier
deriving DecidableEq, Repr

/-- The uncommon-explanation variants (src/main.rs, `enum UncommonExpl`). -/
inductive UncommonExpl : Type where
  | StartsNineDigits : UncommonExpl
  | EndsNineDigits : UncommonExpl
  | ContainsNineContDigits : UncommonExpl

/-- `Display for UncommonExpl` (src/main.rs lines 122-130). -/
def UncommonExpl.fmt : UncommonExpl → String
  | .StartsNineDigits => "Starts with nine digits"
  | .EndsNineDigits => "Ends with nine digits"
  | .ContainsNineContDigits => "Contains nine continuous digits"

/-- The rare-explanation variants (src/main.rs, `enum RareExpl`). -/
inductive RareExpl : Type where
  | StartsNineLetters : RareExpl
  | EndsNineLetters : RareExpl
  | ContainsNineContLetters : RareExpl

/-- `Display for RareExpl` (src/main.rs lines 152-160). -/
def RareExpl.fmt : RareExpl → String
  | .StartsNineLetters => "Starts with nine letters"
  | .EndsNineLetters => "Ends with nine letters"
  | .ContainsNineContLetters => "Contains nine continuous letters"

/-- Does the pattern (first argument) occur at the head of the second list?
Embeds the prefix test underlying Rust's `str::contains`. -/
def matchesAt : List Char → List Char → Bool
  | [], _ => true
  | _ :: _, [] => false
  | p :: ps, c :: cs => p == c && matchesAt ps cs

/-- Does the pattern (first argument) occur as a contiguous substring of the
second list?  Embeds Rust's `str::contains` with a string pattern; for an
ASCII pattern a byte-level UTF-8 substring match occurs exactly at the
char-level positions modelled here. -/
def containsSub : List Char → List Char → Bool
  | pat, [] => pat.isEmpty
  | pat, c :: cs => matchesAt pat (c :: cs) || containsSub pat cs

/-- `UncommonExpl::is_starts_nine_digits` (src/main.rs lines 133-135):
`hash.chars().take(9).all(|c| c.is_ascii_digit())`. -/
def is_starts_nine_digits (hash : List Char) : Bool :=
  (hash.take 9).all Char.isDigit

/-- `UncommonExpl::is_ends_nine_digits` (src/main.rs lines 137-139):
`hash.chars().rev().take(9).all(|c| c.is_ascii_digit())`. -/
def is_ends_nine_digits (hash : List Char) : Bool :=
  (hash.reverse.take 9).all Char.isDigit

/-- `UncommonExpl::is_contains_nine_continuous_digits` (src/main.rs lines
141-143): the hash contains the substring `"999999999"`. -/
def is_contains_nine_continuous_digits (hash : List Char) : Bool :=
  containsSub "999999999".toList hash

/-- `RareExpl::is_starts_nine_letters` (src/main.rs lines 163-165):
`hash.chars().take(9).all(|c| c.is_ascii_alphabetic())`. -/
def is_starts_nine_letters (hash : List Char) : Bool :=
  (hash.take 9).all Char.isAlpha

/-- `RareExpl::is_ends_nine_letters` (src/main.rs lines 166-168):
`hash.chars().rev().take(9).all(|c| c.is_ascii_alphabetic())`. -/
def is_ends_nine_letters (hash : List Char) : Bool :=
  (hash.reverse.take 9).all Char.isAlpha

/-- `RareExpl::is_contains_nine_continuous_letters` (src/main.rs lines
169-171): the hash contains the substring `"abcdefghi"`. -/
def is_contains_nine_continuous_letters (hash : List Char) : Bool :=
  containsSub "abcdefghi".toList hash

/-- `Commit::get_rarity` (src/main.rs lines 75-113): the guarded match on
the hash, evaluated top to bottom, first matching guard wins. -/
def get_rarity (hash : List Char) : Rarity :=
  if is_starts_nine_digits hash then
    ⟨UncommonExpl.fmt .StartsNineDigits, 1/100, .Uncommon⟩
  else if is_ends_nine_digits hash then
    ⟨UncommonExpl.fmt .EndsNineDigits, 1/100, .Uncommon⟩
  else if is_contains_nine_continuous_digits hash then
    ⟨UncommonExpl.fmt .ContainsNineContDigits, 1/100, .Uncommon⟩
  else if is_starts_nine_letters hash then
    ⟨RareExpl.fmt .StartsNineLetters, 1/1000, .Rare⟩
  else if is_ends_nine_letters hash then
    ⟨RareExpl.fmt .EndsNineLetters, 1/1000, .Rare⟩
  else if is_contains_nine_continuous_letters hash then
    ⟨RareExpl.fmt .ContainsNineContLetters, 1/1000, .Rare⟩
  else
    ⟨"", 99/100, .Common⟩

/-- A commit record (src/main.rs, `struct Commit`), parameterized by the
timestamp type `DT` (the source's `DateTime<FixedOffset>` from the external
`chrono` library). -/
structure Commit (DT : Type) : Type where
  author : List Char
  datetime : DT
  hash : List Char
  rarity : Rarity

/-- `Commit::new` (src/main.rs lines 66-73): stores the fields and computes
`rarity` from the hash alone. -/
def Commit.new {DT : Type} (hash author : List Char) (datetime : DT) : Commit DT :=
  { author := author, datetime := datetime, hash := hash, rarity := get_rarity hash }

/-- Rust's `char::is_whitespace` (the Unicode `White_Space` property),
used by `str::split_whitespace`. -/
def isRustWhitespace (c : Char) : Bool :=
  let n := c.toNat
  (9 ≤ n && n ≤ 13) || n == 32 || n == 133 || n == 160 || n == 0x1680 ||
  (0x2000 ≤ n && n ≤ 0x200A) || n == 0x2028 || n == 0x2029 ||
  n == 0x202F || n == 0x205F || n == 0x3000

/-- Accumulator worker for `split_whitespace`: the first argument holds the
current in-progress token in reverse. -/
def splitWsGo : List Char → List Char → List (List Char)
  | acc, [] => if acc.isEmpty then [] else [acc.reverse]
  | acc, c :: cs =>
    if isRustWhitespace c then
      if acc.isEmpty then splitWsGo [] cs else acc.reverse :: splitWsGo [] cs
    else
      splitWsGo (c :: acc) cs

/-- Rust's `str::split_whitespace`: the maximal non-empty runs of
non-whitespace characters, in order. -/
def split_whitespace (s : List Char) : List (List Char) :=
  splitWsGo [] s

/-- `parse_commit` (src/main.rs lines 174-186), abstracted over the external
RFC-3339 parser `rfc3339` (`chrono::DateTime::parse_from_rfc3339`, with
`.ok()` already applied so failure is `none`): first token is the hash,
second the timestamp, the remaining tokens joined with single spaces are
the author; a line with fewer than two tokens or an unparsable timestamp
yields `none`. -/
def parse_commit {DT : Type} (rfc3339 : List Char → Option DT) (line : List Char) :
    Option (Commit DT) :=
  match split_whitespace line with
  | hash :: datetime :: rest =>
    match rfc3339 datetime with
    | some dt => some (Commit.new hash (List.intercalate [' '] rest) dt)
    | none => none
  | _ => none

/-- The count summary (src/main.rs, `struct Count`). -/
structure Count : Type where
  total : Nat
  common : Nat
  uncommon : Nat
  rare : Nat
deriving DecidableEq, Repr

/-- The `--only` branch of `main` (src/main.rs lines 219-224): keep the
commits whose tier equals the requested one, in order. -/
def filter_by_tier {DT : Type} (commits : List (Commit DT)) (t : RarityTier) :
    List (Commit DT) :=
  commits.filter (fun c => decide (c.rarity.tier = t))

/-- The `--count` branch of `main` (src/main.rs lines 230-245): the total
length together with one filtered count per tier. -/
def summarize {DT : Type} (commits : List (Commit DT)) : Count :=
  { total := commits.length
  , common := (commits.filter (fun c => decide (c.rarity.tier = RarityTier.Common))).length
  , uncommon := (commits.filter (fun c => decide (c.rarity.tier = RarityTier.Uncommon))).length
  , rare := (commits.filter (fun c => decide (c.rarity.tier = RarityTier.Rare))).length }

/-- The default branch of `main` (src/main.rs lines 248-252): keep the
commits whose tier is not `Common`, in order. -/
def filter_not_common {DT : Type} (commits : List (Commit DT)) : List (Commit DT) :=
  commits.filter (fun c => decide (c.rarity.tier ≠ RarityTier.Common))

/-- The per-tier field of a `Count`, used to state the summary/filter
consistency properties. -/
def tier_count (k : Count) : RarityTier → Nat
  | .Common => k.common
  | .Uncommon => k.uncommon
  | .Rare => k.rare

/-- Spec rule 2 predicate, in the spec's own words: the hash's last 9
characters are all decimal digits (all of them, when fewer than 9). -/
def spec_last9_digits (h : List Char) : Bool :=
  (h.drop (h.length - 9)).all Char.isDigit

/-- Spec rule 5 predicate, in the spec's own words: the hash's last 9
characters are all ASCII alphabetic (all of them, when fewer than 9). -/
def spec_last9_letters (h : List Char) : Bool :=
  (h.drop (h.length - 9)).all Char.isAlpha

/-- The spec's ordered rule table (§4.1 `classify`, rules 1-6): a predicate
paired with the classification it produces. -/
def spec_rules : List ((List Char → Bool) × Rarity) :=
  [ (fun h => (h.take 9).all Char.isDigit, ⟨"Starts with nine digits", 1/100, .Uncommon⟩)
  , (spec_last9_digits, ⟨"Ends with nine digits", 1/100, .Uncommon⟩)
  , (fun h => containsSub "999999999".toList h, ⟨"Contains nine continuous digits", 1/100, .Uncommon⟩)
  , (fun h => (h.take 9).all Char.isAlpha, ⟨"Starts with nine letters", 1/1000, .Rare⟩)
  , (spec_last9_letters, ⟨"Ends with nine letters", 1/1000, .Rare⟩)
  , (fun h => containsSub "abcdefghi".toList h, ⟨"Contains nine continuous letters", 1/1000, .Rare⟩) ]

/-- First-match evaluation of an ordered rule table, per the spec §4.1:
rules are tried in order and the first matching rule wins; if none matches
the result is rule 7, `Common` with empty explanation and weight 0.99. -/
def first_match : List ((List Char → Bool) × Rarity) → List Char → Rarity
  | [], _ => ⟨"", 99/100, .Common⟩
  | (p, r) :: rules, h => if p h then r else first_match rules h

/-- The classifier as the spec words it: the ordered rule table evaluated
first-match-wins. -/
def spec_classify (h : List Char) : Rarity :=
  first_match spec_rules h

lemma rev_take_all (p : Char → Bool) (l : List Char) (n : Nat) :
    (l.reverse.take n).all p = (l.drop (l.length - n)).all p := by
  rw [List.take_reverse, List.all_reverse]

lemma ends_digits_eq (h : List Char) : is_ends_nine_digits h = spec_last9_digits h := by
  unfold is_ends_nine_digits spec_last9_digits
  exact rev_take_all Char.isDigit h 9

lemma ends_letters_eq (h : List Char) : is_ends_nine_letters h = spec_last9_letters h := by
  unfold is_ends_nine_letters spec_last9_letters
  exact rev_take_all Char.isAlpha h 9

/-- C1: `get_rarity` coincides with the spec's ordered seven-rule
first-match-wins table at every hash, and in particular every hash whose
first 9 characters are all decimal digits is classified `Uncommon` with
explanation "Starts with nine digits" no matter which later rules also
match. -/
theorem get_rarity_eq_spec_classify (h : List Char) :
    get_rarity h = spec_classify h ∧
    (is_starts_nine_digits h = true →
      get_rarity h = ⟨"Starts with nine digits", 1/100, .Uncommon⟩) := by
  constructor
  · unfold get_rarity spec_classify spec_rules first_match
    rw [ends_digits_eq, ends_letters_eq]
    rfl
  · intro hs
    unfold get_rarity
    rw [hs]
    rfl

/-- Witness for C1 at the concrete hash "123456789abcdefghi": its first nine
characters are digits, and even though the letters rules also match, the
result is `Uncommon` "Starts with nine digits", agreeing with the spec
table. -/
theorem get_rarity_eq_spec_classify_witness :
    is_starts_nine_digits "123456789abcdefghi".toList = true ∧
    get_rarity "123456789abcdefghi".toList = ⟨"Starts with nine digits", 1/100, .Uncommon⟩ ∧
    get_rarity "123456789abcdefghi".toList = spec_classify "123456789abcdefghi".toList :=
  ⟨by decide,
   (get_rarity_eq_spec_classify "123456789abcdefghi".toList).2 (by decide),
   (get_rarity_eq_spec_classify "123456789abcdefghi".toList).1⟩

/-- C2 counterexample: on the concrete hash "999999999abc" the classifier
returns explanation "Starts with nine digits", because the first nine
characters are all decimal digits, so rule 1 matches (the claim asserts
rule 1 does not match and rule 3 fires). -/
theorem get_rarity_nines_counterexample :
    get_rarity "999999999abc".toList =
      ⟨"Starts with nine digits", 1/100, .Uncommon⟩ ∧
    (get_rarity "999999999abc".toList).explanation ≠ "Contains nine continuous digits" ∧
    is_starts_nine_digits "999999999abc".toList = true := by
  refine ⟨rfl, ?_, rfl⟩
  decide

/-- C2 amended: `classify("999999999abc")` returns tier `Uncommon` with
explanation "Starts with nine digits": rule 1 matches (the first nine
characters are the digit '9' repeated), rule 3's substring is also present,
but rule 1 precedes it; rule 2 does not match. -/
theorem get_rarity_nines_amended :
    get_rarity "999999999abc".toList =
      ⟨"Starts with nine digits", 1/100, .Uncommon⟩ ∧
    is_ends_nine_digits "999999999abc".toList = false ∧
    is_contains_nine_continuous_digits "999999999abc".toList = true := by
  exact ⟨rfl, by decide, by decide⟩

/-- C3: for hashes shorter than 9 characters the first/last-9 checks
quantify only over the characters present, so an all-digit short hash
(including the empty one) is classified `Uncommon` "Starts with nine
digits", and an all-letter short hash on which the digit rules fail is
classified `Rare` "Starts with nine letters". -/
theorem short_hash_vacuous (h : List Char) (hlen : h.length < 9) :
    (h.all Char.isDigit = true →
      get_rarity h = ⟨"Starts with nine digits", 1/100, .Uncommon⟩) ∧
    (h.all Char.isAlpha = true →
      is_starts_nine_digits h = false →
      is_ends_nine_digits h = false →
      is_contains_nine_continuous_digits h = false →
      get_rarity h = ⟨"Starts with nine letters", 1/1000, .Rare⟩) ∧
    (∀ p : Char → Bool, (h.take 9).all p = h.all p ∧ (h.reverse.take 9).all p = h.all p) := by
  have htake : h.take 9 = h := List.take_of_length_le (by omega)
  have htakerev : h.reverse.take 9 = h.reverse :=
    List.take_of_length_le (by rw [List.length_reverse]; omega)
  refine ⟨?_, ?_, fun p => ⟨by rw [htake], by rw [htakerev, List.all_reverse]⟩⟩
  · intro hd
    simp [get_rarity, is_starts_nine_digits, htake, hd, UncommonExpl.fmt]
  · intro ha h1 h2 h3
    simp [get_rarity, h1, h2, h3, is_starts_nine_letters, htake, ha, RareExpl.fmt]

/-- Witness for C3: "1234" (all digits, length 4) is `Uncommon` "Starts with
nine digits"; "ab" (all letters, length 2, failing every digit rule) is
`Rare` "Starts with nine letters". -/
theorem short_hash_vacuous_witness :
    (("1234".toList.length < 9 ∧ "1234".toList.all Char.isDigit = true) ∧
      get_rarity "1234".toList = ⟨"Starts with nine digits", 1/100, .Uncommon⟩) ∧
    (("ab".toList.length < 9 ∧ "ab".toList.all Char.isAlpha = true) ∧
      get_rarity "ab".toList = ⟨"Starts with nine letters", 1/1000, .Rare⟩) :=
  ⟨⟨⟨by decide, by decide⟩,
    (short_hash_vacuous "1234".toList (by decide)).1 (by decide)⟩,
   ⟨⟨by decide, by decide⟩,
    (short_hash_vacuous "ab".toList (by decide)).2.1
      (by decide) (by decide) (by decide) (by decide)⟩⟩

lemma get_rarity_cases (h : List Char) :
    get_rarity h = ⟨"Starts with nine digits", 1/100, .Uncommon⟩ ∨
    get_rarity h = ⟨"Ends with nine digits", 1/100, .Uncommon⟩ ∨
    get_rarity h = ⟨"Contains nine continuous digits", 1/100, .Uncommon⟩ ∨
    get_rarity h = ⟨"Starts with nine letters", 1/1000, .Rare⟩ ∨
    get_rarity h = ⟨"Ends with nine letters", 1/1000, .Rare⟩ ∨
    get_rarity h = ⟨"Contains nine continuous letters", 1/1000, .Rare⟩ ∨
    get_rarity h = ⟨"", 99/100, .Common⟩ := by
  unfold get_rarity
  split
  · exact Or.inl rfl
  split
  · exact Or.inr (Or.inl rfl)
  split
  · exact Or.inr (Or.inr (Or.inl rfl))
  split
  · exact Or.inr (Or.inr (Or.inr (Or.inl rfl)))
  split
  · exact Or.inr (Or.inr (Or.inr (Or.inr (Or.inl rfl))))
  split
  · exact Or.inr (Or.inr (Or.inr (Or.inr (Or.inr (Or.inl rfl)))))
  · exact Or.inr (Or.inr (Or.inr (Or.inr (Or.inr (Or.inr rfl)))))

/-- C8: the estimated-frequency weight of every classification is fully
determined by its tier (`Common` has 0.99, `Uncommon` 0.01, `Rare` 0.001),
and the explanation is empty exactly when the tier is `Common`. -/
theorem rarity_weight_explanation_invariant (h : List Char) :
    ((get_rarity h).tier = .Common → (get_rarity h).percentage = 99/100) ∧
    ((get_rarity h).tier = .Uncommon → (get_rarity h).percentage = 1/100) ∧
    ((get_rarity h).tier = .Rare → (get_rarity h).percentage = 1/1000) ∧
    ((get_rarity h).explanation = "" ↔ (get_rarity h).tier = .Common) := by
  rcases get_rarity_cases h with e | e | e | e | e | e | e <;> rw [e] <;>
    refine ⟨fun ht => ?_, fun ht => ?_, fun ht => ?_, ?_⟩ <;>
    first
      | rfl
      | exact absurd ht (by decide)
      | decide

/-- Witness for C8 at the hash "deadbeef": it is classified `Rare` (all
eight of its characters are letters), its weight is 0.001, and its
explanation is nonempty. -/
theorem rarity_weight_explanation_invariant_witness :
    (get_rarity "deadbeef".toList).tier = .Rare ∧
    (get_rarity "deadbeef".toList).percentage = 1/1000 ∧
    ((get_rarity "deadbeef".toList).explanation = "" ↔
      (get_rarity "deadbeef".toList).tier = .Common) :=
  ⟨by decide,
   (rarity_weight_explanation_invariant "deadbeef".toList).2.2.1 (by decide),
   (rarity_weight_explanation_invariant "deadbeef".toList).2.2.2⟩

lemma parse_commit_some {DT : Type} (rfc : List Char → Option DT) (line hh tt : List Char)
    (rest : List (List Char)) (d : DT) (hsp : split_whitespace line = hh :: tt :: rest)
    (hrf : rfc tt = some d) :
    parse_commit rfc line = some (Commit.new hh (List.intercalate [' '] rest) d) := by
  simp [parse_commit, hsp, hrf]

lemma parse_commit_none_of_bad_ts {DT : Type} (rfc : List Char → Option DT)
    (line hh tt : List Char) (rest : List (List Char))
    (hsp : split_whitespace line = hh :: tt :: rest) (hrf : rfc tt = none) :
    parse_commit rfc line = none := by
  simp [parse_commit, hsp, hrf]

/-- C4: `parse_commit` yields no record exactly when the whitespace-split
line lacks a hash token or a timestamp token, or the timestamp token fails
to parse; otherwise it yields the record whose hash is the first token,
whose timestamp is the parsed second token and whose author is the
remaining tokens rejoined with single spaces.  The concrete line
"abc123 2024-09-28T17:45:47+00:00 John Doe" parses to hash "abc123" and
author "John Doe", and the one-token line "abc123" yields no record. -/
theorem parse_commit_spec {DT : Type} (rfc : List Char → Option DT) (line : List Char) :
    (parse_commit rfc line = none ↔
      split_whitespace line = [] ∨
      (∃ hh, split_whitespace line = [hh]) ∨
      (∃ hh tt rest, split_whitespace line = hh :: tt :: rest ∧ rfc tt = none)) ∧
    (∀ hh tt rest d, split_whitespace line = hh :: tt :: rest → rfc tt = some d →
      parse_commit rfc line = some (Commit.new hh (List.intercalate [' '] rest) d)) ∧
    (∀ d, rfc "2024-09-28T17:45:47+00:00".toList = some d →
      parse_commit rfc "abc123 2024-09-28T17:45:47+00:00 John Doe".toList =
        some (Commit.new "abc123".toList "John Doe".toList d)) ∧
    parse_commit rfc "abc123".toList = none := by
  refine ⟨⟨?_, ?_⟩, fun hh tt rest d hsp hrf => parse_commit_some rfc line hh tt rest d hsp hrf,
    ?_, rfl⟩
  · intro hp
    rcases hsp : split_whitespace line with _ | ⟨hh, _ | ⟨tt, rest⟩⟩
    · exact Or.inl rfl
    · exact Or.inr (Or.inl ⟨hh, rfl⟩)
    · rcases hrf : rfc tt with _ | d
      · exact Or.inr (Or.inr ⟨hh, tt, rest, rfl, hrf⟩)
      · rw [parse_commit_some rfc line hh tt rest d hsp hrf] at hp
        cases hp
  · intro hcase
    rcases hcase with hnil | ⟨hh, hone⟩ | ⟨hh, tt, rest, hsp, hrf⟩
    · simp [parse_commit, hnil]
    · simp [parse_commit, hone]
    · exact parse_commit_none_of_bad_ts rfc line hh tt rest hsp hrf
  · intro d hrf
    exact parse_commit_some rfc _ "abc123".toList "2024-09-28T17:45:47+00:00".toList
      ["John".toList, "Doe".toList] d (by decide) hrf

/-- Witness for C4: with an RFC-3339 parser succeeding on the example
timestamp, the example line parses to the expected record, and the
one-token line is rejected. -/
theorem parse_commit_spec_witness :
    parse_commit
        (fun t => if t = "2024-09-28T17:45:47+00:00".toList then some (0 : Nat) else none)
        "abc123 2024-09-28T17:45:47+00:00 John Doe".toList =
      some (Commit.new "abc123".toList "John Doe".toList 0) ∧
    parse_commit
        (fun t => if t = "2024-09-28T17:45:47+00:00".toList then some (0 : Nat) else none)
        "abc123".toList = none :=
  ⟨(parse_commit_spec
      (fun t => if t = "2024-09-28T17:45:47+00:00".toList then some (0 : Nat) else none)
      "abc123 2024-09-28T17:45:47+00:00 John Doe".toList).2.2.1 0 (by decide),
   (parse_commit_spec
      (fun t => if t = "2024-09-28T17:45:47+00:00".toList then some (0 : Nat) else none)
      "abc123".toList).2.2.2⟩

/-- C9: `get_rarity` is deterministic (equal hashes classify equally), the
`rarity` field of every record built by `parse_commit` equals `get_rarity`
of that record's own hash (no dependence on position or on other commits),
and mapping the parser over a concatenation of line chunks equals the
concatenation of the per-chunk results, so chunked (parallel) and
sequential evaluation agree. -/
theorem classify_pure {DT : Type} (rfc : List Char → Option DT)
    (line : List Char) (c : Commit DT) :
    (∀ h₁ h₂ : List Char, h₁ = h₂ → get_rarity h₁ = get_rarity h₂) ∧
    (parse_commit rfc line = some c → c.rarity = get_rarity c.hash) ∧
    (∀ lines₁ lines₂ : List (List Char),
      List.filterMap (parse_commit rfc) (lines₁ ++ lines₂) =
        List.filterMap (parse_commit rfc) lines₁ ++
          List.filterMap (parse_commit rfc) lines₂) := by
  refine ⟨fun h₁ h₂ e => by rw [e], ?_, fun l₁ l₂ => List.filterMap_append l₁ l₂ _⟩
  intro hp
  rcases hsp : split_whitespace line with _ | ⟨hh, _ | ⟨tt, rest⟩⟩
  · simp [parse_commit, hsp] at hp
  · simp [parse_commit, hsp] at hp
  · rcases hrf : rfc tt with _ | d
    · rw [parse_commit_none_of_bad_ts rfc line hh tt rest hsp hrf] at hp
      cases hp
    · rw [parse_commit_some rfc line hh tt rest d hsp hrf] at hp
      cases hp
      rfl

/-- Witness for C9: a concrete two-token line parsed with a trivial
timestamp parser produces a record whose `rarity` is `get_rarity` of its
hash. -/
theorem classify_pure_witness :
    parse_commit (fun _ => some (0 : Nat)) "a b".toList =
      some (Commit.new "a".toList [] 0) ∧
    (Commit.new "a".toList [] (0 : Nat)).rarity =
      get_rarity (Commit.new "a".toList [] (0 : Nat)).hash :=
  ⟨rfl,
   (classify_pure (fun _ => some (0 : Nat)) "a b".toList (Commit.new "a".toList [] 0)).2.1 rfl⟩

/-- C10: a line whose whitespace split is exactly a hash token and a
parsable timestamp token is accepted, with the empty author; and whether a
line is rejected depends only on its first two tokens and the timestamp's
parsability, never on the author tokens that follow. -/
theorem parse_commit_author_optional {DT : Type} (rfc : List Char → Option DT)
    (line line' hh tt : List Char) (d : DT) :
    (split_whitespace line = [hh, tt] → rfc tt = some d →
      parse_commit rfc line = some (Commit.new hh [] d)) ∧
    (∀ hh2 tt2 rest rest', split_whitespace line = hh2 :: tt2 :: rest →
      split_whitespace line' = hh2 :: tt2 :: rest' →
      (parse_commit rfc line = none ↔ parse_commit rfc line' = none)) := by
  constructor
  · intro hsp hrf
    exact parse_commit_some rfc line hh tt [] d hsp hrf
  · intro hh2 tt2 rest rest' hsp hsp'
    rcases hrf : rfc tt2 with _ | d2
    · rw [parse_commit_none_of_bad_ts rfc line hh2 tt2 rest hsp hrf,
        parse_commit_none_of_bad_ts rfc line' hh2 tt2 rest' hsp' hrf]
    · rw [parse_commit_some rfc line hh2 tt2 rest d2 hsp hrf,
        parse_commit_some rfc line' hh2 tt2 rest' d2 hsp' hrf]
      simp

/-- Witness for C10: the two-token line "ab 12", with a parser accepting
every timestamp, yields a record with empty author. -/
theorem parse_commit_author_optional_witness :
    split_whitespace "ab 12".toList = ["ab".toList, "12".toList] ∧
    parse_commit (fun _ => some (0 : Nat)) "ab 12".toList =
      some (Commit.new "ab".toList [] 0) :=
  ⟨by decide,
   (parse_commit_author_optional (fun _ => some (0 : Nat)) "ab 12".toList "ab 12".toList
      "ab".toList "12".toList 0).1 (by decide) rfl⟩

/-- C5: the count summary's `total` equals the collection's length and
equals the sum of the three per-tier counts; on the empty collection all
four counts are zero. -/
theorem summarize_partition {DT : Type} (C : List (Commit DT)) :
    (summarize C).total = C.length ∧
    (summarize C).total = (summarize C).common + (summarize C).uncommon + (summarize C).rare ∧
    summarize ([] : List (Commit DT)) = ⟨0, 0, 0, 0⟩ := by
  refine ⟨rfl, ?_, rfl⟩
  induction C with
  | nil => rfl
  | cons c cs ih =>
    rcases htier : c.rarity.tier with _ | _ | _ <;>
      simp [summarize, List.filter_cons, htier] at ih ⊢ <;> omega

/-- C6: `filter_by_tier` is the subsequence of the collection consisting
exactly of the records whose tier equals the requested one (order
preserved), and its length equals the corresponding field of the count
summary. -/
theorem filter_by_tier_spec {DT : Type} (C : List (Commit DT)) (t : RarityTier) :
    List.Sublist (filter_by_tier C t) C ∧
    (∀ c, c ∈ filter_by_tier C t ↔ c ∈ C ∧ c.rarity.tier = t) ∧
    (filter_by_tier C t).length = tier_count (summarize C) t := by
  refine ⟨List.filter_sublist C, fun c => ?_, ?_⟩
  · simp [filter_by_tier]
  · cases t <;> rfl

/-- C7: the default view `filter_not_common` equals the order-preserving
filter keeping exactly the `Uncommon`-or-`Rare` records, i.e. the merge in
original input order of the `Uncommon` filter and the `Rare` filter. -/
theorem filter_not_common_spec {DT : Type} (C : List (Commit DT)) :
    filter_not_common C =
      C.filter (fun c => decide (c.rarity.tier = .Uncommon ∨ c.rarity.tier = .Rare)) ∧
    (∀ c, c ∈ filter_not_common C ↔
      c ∈ filter_by_tier C .Uncommon ∨ c ∈ filter_by_tier C .Rare) ∧
    List.Sublist (filter_not_common C) C := by
  refine ⟨?_, fun c => ?_, List.filter_sublist C⟩
  · apply List.filter_congr
    intro c _
    rcases c.rarity.tier with _ | _ | _ <;> simp
  · simp only [filter_not_common, filter_by_tier, List.mem_filter, decide_eq_true_eq]
    rcases htier : c.rarity.tier with _ | _ | _ <;> simp [htier]
